import Mathlib

/-!
Verification of the gemini-fs-mcp file server (`src/server.js`) against its
design specification.

The development shallowly embeds the path arithmetic, the text-substitution
helpers, and the filesystem-affecting operations of `server.js` as pure Lean
functions over an explicit filesystem state.  Conventions:

* Paths are modelled with POSIX semantics (`/` separator), matching the
  absolute-path examples of the specification (`/home/user`).  `os.homedir()`
  is passed explicitly as the `home` argument of every operation.
* Node's `path.join(home, p)` followed by `path.resolve` is modelled by
  `resolveJoin home p`: split on `/`, drop empty and `.` segments, let `..`
  pop the previous segment (clamped at the root), and render the result as an
  absolute path.  `path.join` already normalizes, so the operations' later
  filesystem accesses use the same normalized path.
* The filesystem is a flat state: an association list of file paths to string
  contents, a list of existing directories, and an association list of zip
  archive paths to their entry lists.  Zip archives are modelled at the entry
  level (name plus data); the byte-level zip container produced by the
  `archiver` library and consumed by `yauzl` is treated as a faithful codec,
  since both are external dependencies of the repository.
* JavaScript errors are modelled by `FsError`.  Errors that `server.js`
  constructs itself get dedicated constructors; errors of the underlying
  `fs` layer that the code rethrows unchanged are `FsError.rawFs` carrying
  the Node error code (for example "ENOENT").
-/

/-- Split a path string on the separator character, like
`s.split('/')` / Node's internal segmentation.  Implemented by structural
recursion over the character list so that it evaluates inside the kernel. -/
def splitSegsAux (cur : List Char) : List Char → List String
  | [] => [⟨cur.reverse⟩]
  | c :: rest =>
    if c = '/' then ⟨cur.reverse⟩ :: splitSegsAux [] rest
    else splitSegsAux (c :: cur) rest

/-- `splitPath s` is the list of `/`-separated components of `s`. -/
def splitPath (s : String) : List String := splitSegsAux [] s.data

/-- Lexical normalization of an absolute path's segments, as performed by
Node's `path.resolve`/`path.join`: empty segments and `.` are dropped, `..`
removes the previous segment and is ignored at the root.  `acc` holds the
already-normalized segments in reverse order. -/
def normSegsAux (acc : List String) : List String → List String
  | [] => acc.reverse
  | seg :: rest =>
    if seg = "" ∨ seg = "." then normSegsAux acc rest
    else if seg = ".." then normSegsAux acc.tail rest
    else normSegsAux (seg :: acc) rest

/-- Render a normalized segment list as an absolute POSIX path string. -/
def renderAbs (segs : List String) : String :=
  match segs with
  | [] => "/"
  | _ => ⟨segs.foldl (fun acc seg => acc ++ '/' :: seg.data) []⟩

/-- `resolveJoin base rel` models `path.resolve(path.join(base, rel))` for an
absolute `base`: concatenate the segments and normalize lexically. -/
def resolveJoin (base rel : String) : String :=
  renderAbs (normSegsAux [] (splitPath base ++ splitPath rel))

/-- `strStartsWith s pre` models JavaScript's `s.startsWith(pre)`:
`pre` is a character-level prefix of `s`. -/
def strStartsWith (s pre : String) : Bool := pre.data.isPrefixOf s.data

/-- The sandbox check performed (identically) by every operation of
`server.js`:

`if (!path.resolve(path.join(homeDir, userPath)).startsWith(homeDir)) throw`

Note that the code compares raw string prefixes: no trailing separator is
appended to either side. -/
def sandboxOk (home rel : String) : Bool := strStartsWith (resolveJoin home rel) home

/-- The specification's confinement rule (§3, §8): the candidate path with a
trailing separator appended must start with the root with a trailing
separator appended.  Stated from the specification's words, to be compared
with the `sandboxOk` check actually implemented by the code. -/
def descendantWithSep (root p : String) : Bool :=
  (root.data ++ ['/']).isPrefixOf (p.data ++ ['/'])

/-- Whether a user path contains a parent-directory component `..` anywhere
in its `/`-separated component sequence (the specification's lexical
rejection rule, §4.1 rule 3). -/
def hasParentSeg (s : String) : Bool := (splitPath s).contains ".."

/-- `parentDir p` models `path.dirname(p)` on a normalized absolute path:
drop the last segment. -/
def parentDir (p : String) : String :=
  renderAbs ((normSegsAux [] (splitPath p)).dropLast)

/-! ### Literal text scanning

`editFile` and `replaceString` compile the caller-supplied pattern with
`new RegExp(pattern, 'g')` and count/replace with it.  The scan is modelled
for literal patterns (patterns without regex metacharacters), for which the
JavaScript semantics is: non-overlapping left-to-right matching, an empty
pattern matching at every position (`length + 1` many), and `$`-substitution
in the replacement not taken into account (replacements are literal). -/

/-- Count non-overlapping left-to-right occurrences of the nonempty pattern
`pat`.  `skip` is the number of characters of the current match still to be
consumed before scanning may resume. -/
def countAux (pat : List Char) : Nat → List Char → Nat
  | _, [] => 0
  | k + 1, _ :: rest => countAux pat k rest
  | 0, c :: rest =>
    if pat.isPrefixOf (c :: rest) then 1 + countAux pat (pat.length - 1) rest
    else countAux pat 0 rest

/-- Number of matches of `new RegExp(pat, 'g')` in `s` for a literal pattern:
`(s.match(re) || []).length`.  An empty pattern matches at every position. -/
def listCountOccs (s pat : List Char) : Nat :=
  if pat = [] then s.length + 1 else countAux pat 0 s

/-- Replace every non-overlapping occurrence of the nonempty pattern `pat`
by `repl`, left to right (`String.prototype.replace` with a `g` regex). -/
def replAllAux (pat repl : List Char) : Nat → List Char → List Char
  | _, [] => []
  | k + 1, _ :: rest => replAllAux pat repl k rest
  | 0, c :: rest =>
    if pat.isPrefixOf (c :: rest) then repl ++ replAllAux pat repl (pat.length - 1) rest
    else c :: replAllAux pat repl 0 rest

/-- `content.replace(new RegExp(pat, 'g'), repl)` for a literal pattern.
For the empty pattern JavaScript inserts `repl` at every position. -/
def listReplaceAll (s pat repl : List Char) : List Char :=
  if pat = [] then repl ++ s.flatMap (fun c => c :: repl)
  else replAllAux pat repl 0 s

/-- `content.replace(pat, repl)` with a *string* first argument: replace only
the first occurrence (used by `editFile` after its uniqueness check). -/
def listReplaceFirst : List Char → List Char → List Char → List Char
  | [], pat, repl => if pat = [] then repl else []
  | c :: rest, pat, repl =>
    if pat.isPrefixOf (c :: rest) then repl ++ (c :: rest).drop pat.length
    else c :: listReplaceFirst rest pat repl

/-- String-level wrapper for `listCountOccs`. -/
def strCountOccs (s pat : String) : Nat := listCountOccs s.data pat.data

/-- String-level wrapper for `listReplaceAll`. -/
def strReplaceAll (s pat repl : String) : String :=
  ⟨listReplaceAll s.data pat.data repl.data⟩

/-- String-level wrapper for `listReplaceFirst`. -/
def strReplaceFirst (s pat repl : String) : String :=
  ⟨listReplaceFirst s.data pat.data repl.data⟩

/-! ### Errors and filesystem state -/

/-- Structured failures of the operations.  Constructors mirror the error
taxonomy of §7 as realised by the `throw new Error(...)` sites of
`server.js`; `rawFs` is an error of the underlying `fs` layer that the code
rethrows unchanged, carrying the Node error code.  `unhandledError` is an
`error` event emitted on an event emitter for which the code registers no
listener: the surrounding promise never settles and the error escapes the
operation as an unhandled exception — modelled as a distinct outcome,
carrying the event's message. -/
inductive FsError where
  | pathRestricted : FsError
  | alreadyExists : FsError
  | noMatch : String → FsError
  | notUniqueMsg : Nat → FsError
  | notFoundMsg : String → FsError
  | rawFs : String → FsError
  | unhandledError : String → FsError
deriving DecidableEq

/-- One logical zip entry: a forward-slash relative name (directory entries
end with `/`, cf. the `/\/$/.test(entry.fileName)` check of `unzipFile`) and
the entry's bytes (empty for directories). -/
structure ZipEntry where
  name : String
  data : String
deriving DecidableEq

/-- Flat filesystem state: text files, existing directories, and zip
archives (modelled at the entry level, see the header comment). -/
structure FsState where
  files : List (String × String)
  dirs : List String
  zips : List (String × List ZipEntry)
deriving DecidableEq

/-- Content of the text file at (already resolved) path `p`, if any. -/
def getFile (st : FsState) (p : String) : Option String :=
  (st.files.find? (fun e => e.1 == p)).map (fun e => e.2)

/-- Entry list of the zip archive at path `p`, if any. -/
def getZip (st : FsState) (p : String) : Option (List ZipEntry) :=
  (st.zips.find? (fun e => e.1 == p)).map (fun e => e.2)

/-- Create or overwrite the text file at `p` with content `c`. -/
def setFile (st : FsState) (p c : String) : FsState :=
  { st with files := (p, c) :: st.files.filter (fun e => e.1 != p) }

/-- Create or overwrite the zip archive at `p`. -/
def setZip (st : FsState) (p : String) (es : List ZipEntry) : FsState :=
  { st with zips := (p, es) :: st.zips.filter (fun e => e.1 != p) }

/-- Remove the text file at `p`. -/
def removeFile (st : FsState) (p : String) : FsState :=
  { st with files := st.files.filter (fun e => e.1 != p) }

/-- Remove the zip archive at `p`. -/
def removeZip (st : FsState) (p : String) : FsState :=
  { st with zips := st.zips.filter (fun e => e.1 != p) }

/-- Whether a text file exists at `p`. -/
def fileExists (st : FsState) (p : String) : Bool := (getFile st p).isSome

/-- Whether a zip archive exists at `p`. -/
def zipExists (st : FsState) (p : String) : Bool := (getZip st p).isSome

/-- Whether a directory exists at `p`. -/
def dirExists (st : FsState) (p : String) : Bool := st.dirs.contains p

/-- Whether any entry (file, directory or archive) exists at `p`. -/
def entryExists (st : FsState) (p : String) : Bool :=
  fileExists st p || dirExists st p || zipExists st p

/-- `fse.ensureDir p`: create the directory if it is missing.  (Creation of
missing intermediate ancestors is abstracted: only `p` itself is recorded.) -/
def ensureDir (st : FsState) (p : String) : FsState :=
  if st.dirs.contains p then st else { st with dirs := p :: st.dirs }

/-- `p` equals `root` or lies strictly below it (string prefix with a
separator appended to the root, on already-normalized paths). -/
def underOrEq (root p : String) : Bool :=
  p == root || strStartsWith p (root ++ "/")

/-- Classifies an error as "not found"-like: the NotFound messages the code
itself builds, the no-match failure of `editFile`, and a raw `ENOENT`. -/
def isNotFoundClass : FsError → Bool
  | .notFoundMsg _ => true
  | .noMatch _ => true
  | .rawFs code => code == "ENOENT"
  | _ => false

/-- Projects the error out of an operation result. -/
def errOf {α : Type} : Except FsError α → Option FsError
  | .error e => some e
  | .ok _ => none

/-! ### Operations of the dispatcher (`server.js`)

Every operation takes `home` (the value of `os.homedir()`) and the current
filesystem state explicitly; state-modifying operations return the new state
together with the result.  Each body performs the sandbox check first,
exactly as in the source, and then the filesystem effect. -/

/-- `readFile` (`server.js:378`).  The `fs.readFile` call has no
error handler: a missing file surfaces as a raw `ENOENT`, a directory as a
raw `EISDIR`. -/
def readFile (home : String) (st : FsState) (filePath : String) :
    Except FsError String :=
  let target := resolveJoin home filePath
  if !(sandboxOk home filePath) then .error .pathRestricted
  else
    match getFile st target with
    | some c => .ok c
    | none => if dirExists st target then .error (.rawFs "EISDIR") else .error (.rawFs "ENOENT")

/-- `createFile` (`server.js:397`).  `fs.writeFile` with flag `wx`:
fails with `EEXIST` (mapped to the AlreadyExists message) when an entry
already exists, and with a raw `ENOENT` when the parent directory is
missing; only `EEXIST` is caught and translated. -/
def createFile (home : String) (st : FsState) (filePath content : String) :
    FsState × Except FsError Unit :=
  let target := resolveJoin home filePath
  if !(sandboxOk home filePath) then (st, .error .pathRestricted)
  else if entryExists st target then (st, .error .alreadyExists)
  else if !(dirExists st (parentDir target)) then (st, .error (.rawFs "ENOENT"))
  else (setFile st target content, .ok ())

/-- `editFile` (`server.js:417`).  Reads the file (raw error when missing),
counts the global-regex matches of `oldContent`, requires exactly one, and
only then rewrites the file with the first occurrence replaced. -/
def editFile (home : String) (st : FsState) (filePath oldContent newContent : String) :
    FsState × Except FsError Unit :=
  let target := resolveJoin home filePath
  if !(sandboxOk home filePath) then (st, .error .pathRestricted)
  else
    match getFile st target with
    | none =>
      if dirExists st target then (st, .error (.rawFs "EISDIR"))
      else (st, .error (.rawFs "ENOENT"))
    | some content =>
      let occurrences := strCountOccs content oldContent
      if occurrences = 0 then (st, .error (.noMatch target))
      else if 1 < occurrences then (st, .error (.notUniqueMsg occurrences))
      else (setFile st target (strReplaceFirst content oldContent newContent), .ok ())

/-- `replaceString` (`server.js:441`): global replacement, no uniqueness
requirement, rewrites unconditionally (also when nothing matched). -/
def replaceString (home : String) (st : FsState) (filePath oldString newString : String) :
    FsState × Except FsError Unit :=
  let target := resolveJoin home filePath
  if !(sandboxOk home filePath) then (st, .error .pathRestricted)
  else
    match getFile st target with
    | none =>
      if dirExists st target then (st, .error (.rawFs "EISDIR"))
      else (st, .error (.rawFs "ENOENT"))
    | some content =>
      (setFile st target (strReplaceAll content oldString newString), .ok ())

/-- `deleteFile` (`server.js:457`).  `fs.unlink` has no error handler:
missing entry is a raw `ENOENT`, a directory a raw `EISDIR`. -/
def deleteFile (home : String) (st : FsState) (filePath : String) :
    FsState × Except FsError Unit :=
  let target := resolveJoin home filePath
  if !(sandboxOk home filePath) then (st, .error .pathRestricted)
  else if fileExists st target then (removeFile st target, .ok ())
  else if zipExists st target then (removeZip st target, .ok ())
  else if dirExists st target then (st, .error (.rawFs "EISDIR"))
  else (st, .error (.rawFs "ENOENT"))

/-- `deleteDirectory` (`server.js:469`).  `fs.rm` with
`{ recursive: true, force: true }`: removes the whole subtree, and `force`
suppresses the not-found condition, so a missing target still succeeds. -/
def deleteDirectory (home : String) (st : FsState) (directoryPath : String) :
    FsState × Except FsError Unit :=
  let target := resolveJoin home directoryPath
  if !(sandboxOk home directoryPath) then (st, .error .pathRestricted)
  else
    ({ files := st.files.filter (fun e => !(underOrEq target e.1)),
       dirs := st.dirs.filter (fun d => !(underOrEq target d)),
       zips := st.zips.filter (fun e => !(underOrEq target e.1)) }, .ok ())

/-- Rewrite a path after `fs.rename src dst`: the entry itself and everything
below it moves under `dst`. -/
def replacePathUnder (src dst p : String) : String :=
  if p == src then dst
  else if strStartsWith p (src ++ "/") then ⟨dst.data ++ p.data.drop src.data.length⟩
  else p

/-- `fs.rename`: raw `ENOENT` when the source is missing; otherwise the
entry (and, for directories, its subtree) moves to the destination.
Overwrite corner cases of `rename(2)` (existing destination) are abstracted:
an existing destination file is replaced. -/
def fsRename (st : FsState) (src dst : String) : FsState × Except FsError Unit :=
  if !(entryExists st src) then (st, .error (.rawFs "ENOENT"))
  else
    ({ files := st.files.map (fun e => (replacePathUnder src dst e.1, e.2)),
       dirs := st.dirs.map (replacePathUnder src dst),
       zips := st.zips.map (fun e => (replacePathUnder src dst e.1, e.2)) }, .ok ())

/-- `renameFile` (`server.js:481`): both arguments are sandbox-checked, then
`fs.rename`. -/
def renameFile (home : String) (st : FsState) (oldPath newPath : String) :
    FsState × Except FsError Unit :=
  if !(sandboxOk home oldPath) || !(sandboxOk home newPath) then (st, .error .pathRestricted)
  else fsRename st (resolveJoin home oldPath) (resolveJoin home newPath)

/-- `renameDirectory` (`server.js:494`): body identical to `renameFile`. -/
def renameDirectory (home : String) (st : FsState) (oldPath newPath : String) :
    FsState × Except FsError Unit :=
  if !(sandboxOk home oldPath) || !(sandboxOk home newPath) then (st, .error .pathRestricted)
  else fsRename st (resolveJoin home oldPath) (resolveJoin home newPath)

/-- `moveFile` (`server.js:507`): body identical to `renameFile`. -/
def moveFile (home : String) (st : FsState) (sourcePath destinationPath : String) :
    FsState × Except FsError Unit :=
  if !(sandboxOk home sourcePath) || !(sandboxOk home destinationPath) then
    (st, .error .pathRestricted)
  else fsRename st (resolveJoin home sourcePath) (resolveJoin home destinationPath)

/-- `moveDirectory` (`server.js:520`): body identical to `renameFile`. -/
def moveDirectory (home : String) (st : FsState) (sourcePath destinationPath : String) :
    FsState × Except FsError Unit :=
  if !(sandboxOk home sourcePath) || !(sandboxOk home destinationPath) then
    (st, .error .pathRestricted)
  else fsRename st (resolveJoin home sourcePath) (resolveJoin home destinationPath)

/-- Payload of `getFileInfo` (timestamps are not modelled). -/
structure FileInfo where
  size : Nat
  isFile : Bool
  isDirectory : Bool
deriving DecidableEq

/-- `getFileInfo` (`server.js:545`).  `fs.stat` has no error handler: a
missing entry surfaces as a raw `ENOENT`.  The byte size of a zip archive
file is not modelled (reported as 0). -/
def getFileInfo (home : String) (st : FsState) (filePath : String) :
    Except FsError FileInfo :=
  let target := resolveJoin home filePath
  if !(sandboxOk home filePath) then .error .pathRestricted
  else
    match getFile st target with
    | some c => .ok ⟨c.data.length, true, false⟩
    | none =>
      if zipExists st target then .ok ⟨0, true, false⟩
      else if dirExists st target then .ok ⟨0, false, true⟩
      else .error (.rawFs "ENOENT")

/-- `getDirectoryInfo` (`server.js:565`).  `fs.readdir` has no error
handler: missing directory is a raw `ENOENT`, a file target a raw
`ENOTDIR`.  Returns (file count, directory count) of the immediate
children. -/
def getDirectoryInfo (home : String) (st : FsState) (directoryPath : String) :
    Except FsError (Nat × Nat) :=
  let target := resolveJoin home directoryPath
  if !(sandboxOk home directoryPath) then .error .pathRestricted
  else if dirExists st target then
    .ok ((st.files.filter (fun e => parentDir e.1 == target)).length +
           (st.zips.filter (fun e => parentDir e.1 == target)).length,
         (st.dirs.filter (fun d => parentDir d == target && d != target)).length)
  else if fileExists st target || zipExists st target then .error (.rawFs "ENOTDIR")
  else .error (.rawFs "ENOENT")

/-- `appendToFile` (`server.js:595`).  `fs.appendFile` appends to an
existing file and creates a missing one; it fails with `ENOENT` only when
the parent directory is missing, and that `ENOENT` is caught and mapped to
the "File not found" message carrying the target path. -/
def appendToFile (home : String) (st : FsState) (filePath content : String) :
    FsState × Except FsError Unit :=
  let target := resolveJoin home filePath
  if !(sandboxOk home filePath) then (st, .error .pathRestricted)
  else
    match getFile st target with
    | some c => (setFile st target (c ++ content), .ok ())
    | none =>
      if dirExists st target then (st, .error (.rawFs "EISDIR"))
      else if dirExists st (parentDir target) then (setFile st target content, .ok ())
      else (st, .error (.notFoundMsg target))

/-- `prependToFile` (`server.js:614`).  Reads the file first; the read's
`ENOENT` (missing file) is caught and mapped to the "File not found"
message; other read errors are rethrown raw. -/
def prependToFile (home : String) (st : FsState) (filePath content : String) :
    FsState × Except FsError Unit :=
  let target := resolveJoin home filePath
  if !(sandboxOk home filePath) then (st, .error .pathRestricted)
  else
    match getFile st target with
    | some c => (setFile st target (content ++ c), .ok ())
    | none =>
      if dirExists st target then (st, .error (.rawFs "EISDIR"))
      else (st, .error (.notFoundMsg target))

/-- Index of the first occurrence of `pat` in `s` at position `start` or
later, if any (`RegExp` matching from `lastIndex` for a literal pattern). -/
def firstOccFrom (pat s : List Char) (start : Nat) : Option Nat :=
  ((List.range (s.length + 1 - start)).find?
      (fun k => pat.isPrefixOf (s.drop (start + k)))).map (fun k => start + k)

/-- The line loop of `searchInFile`: the code reuses one global regex across
lines, so `lastIndex` persists between `regex.test(...)` calls — a match in
one line makes the scan of the next line start at the match's end offset.
Modelled for a literal pattern.  Returns (1-based line number, line). -/
def gTestLines (pat : String) (lines : List String) : List (Nat × String) :=
  (lines.foldl
    (fun acc line =>
      match firstOccFrom pat.data line.data acc.2.2 with
      | some j => (acc.1 ++ [(acc.2.1 + 1, line)], acc.2.1 + 1, j + pat.data.length)
      | none => (acc.1, acc.2.1 + 1, 0))
    (([] : List (Nat × String)), 0, 0)).1

/-- Strip one trailing carriage return (the `\r?` of the split pattern). -/
def stripCR (t : String) : String :=
  if t.data.getLast? == some '\r' then ⟨t.data.dropLast⟩ else t

/-- `content.split(/\r?\n/)`: split on newlines, removing one carriage
return before each newline. -/
def splitLines (s : String) : List String :=
  let parts := (s.data.splitOn '\n').map (fun cs => (⟨cs⟩ : String))
  parts.dropLast.map stripCR ++ parts.drop (parts.length - 1)

/-- `searchInFile` (`server.js:635`).  The read's `ENOENT` is caught and
mapped to the "File not found" message; matching uses one shared global
regex (see `gTestLines`). -/
def searchInFile (home : String) (st : FsState) (filePath pattern : String) :
    Except FsError (List (Nat × String)) :=
  let target := resolveJoin home filePath
  if !(sandboxOk home filePath) then .error .pathRestricted
  else
    match getFile st target with
    | some c => .ok (gTestLines pattern (splitLines c))
    | none =>
      if dirExists st target then .error (.rawFs "EISDIR")
      else .error (.notFoundMsg target)

/-- `changePermissions` (`server.js:744`).  `fs.chmod`'s `ENOENT` is caught
and mapped to the "File or directory not found" message.  Permission bits
themselves are not part of the state (no claim concerns them), so a
successful chmod leaves the state unchanged. -/
def changePermissions (home : String) (st : FsState) (filePath : String) (_mode : Nat) :
    FsState × Except FsError Unit :=
  let target := resolveJoin home filePath
  if !(sandboxOk home filePath) then (st, .error .pathRestricted)
  else if entryExists st target then (st, .ok ())
  else (st, .error (.notFoundMsg target))

/-- Modification time of the file at `p` according to the stat table `mt`
(milliseconds).  `FsState` does not track write times (no claim concerns
them), so the two listing operations take the stat results as an explicit
association table, defaulting to 0. -/
def getMtime (mt : List (String × Nat)) (p : String) : Nat :=
  (((mt.find? (fun e => e.1 == p)).map (fun e => e.2)).getD 0)

/-- Base name (last path component) of a normalized absolute path, as
`fs.readdir` reports its children. -/
def baseName (p : String) : String :=
  ((normSegsAux [] (splitPath p)).getLastD "")

/-- Insert into a list sorted by strictly descending key. -/
def insertByDesc {α : Type} (key : α → Nat) (x : α) : List α → List α
  | [] => [x]
  | y :: ys => if key y < key x then x :: y :: ys else y :: insertByDesc key x ys

/-- Sort by descending key (`fileStats.sort((a, b) => b.modifiedAt -
a.modifiedAt)`; the comparator makes tie order an implementation detail, and
the specification guarantees no ordering). -/
def sortByDesc {α : Type} (key : α → Nat) : List α → List α
  | [] => []
  | x :: xs => insertByDesc key x (sortByDesc key xs)

/-- `new RegExp(pat).test(s)` for a literal pattern: does `pat` occur
anywhere in `s`?  (An empty or absent pattern matches everything, as in
JavaScript.) -/
def strHasOcc (s pat : String) : Bool := listCountOccs s.data pat.data != 0

/-- `listRecentFiles` (`server.js:763`).  `directoryPath` is optional
(defaulting to the home directory) and `limit` defaults to 10 (`args.limit
|| 10`: an explicit 0 is falsy and also yields 10).  `fs.readdir`'s `ENOENT`
is caught and mapped to the "Directory not found" message carrying the
resolved path; any other readdir error (e.g. `ENOTDIR` on a file) is
rethrown raw.  Returns the most recent (base name, modification time)
pairs, most recent first. -/
def listRecentFiles (home : String) (st : FsState) (mtimes : List (String × Nat))
    (directoryPath : Option String) (limit : Option Nat) :
    Except FsError (List (String × Nat)) :=
  let target := match directoryPath with
    | some d => resolveJoin home d
    | none => resolveJoin home ""
  let lim := match limit with
    | some (n + 1) => n + 1
    | _ => 10
  if !(strStartsWith target home) then .error .pathRestricted
  else if dirExists st target then
    let fileStats :=
      (st.files.filter (fun e => parentDir e.1 == target)).map
          (fun e => (baseName e.1, getMtime mtimes e.1)) ++
        (st.zips.filter (fun e => parentDir e.1 == target)).map
          (fun e => (baseName e.1, getMtime mtimes e.1))
    .ok ((sortByDesc (fun e => e.2) fileStats).take lim)
  else if fileExists st target || zipExists st target then .error (.rawFs "ENOTDIR")
  else .error (.notFoundMsg target)

/-- One `searchFiles` result: child name, full path, size in bytes, and
modification time (timestamps and zip byte sizes as in `getFileInfo`). -/
structure FoundFile where
  name : String
  path : String
  size : Nat
  modifiedAt : Nat
deriving DecidableEq

/-- `searchFiles` (`server.js:799`).  All filters are conjunctive; absent
`minSize`/`modifiedSince` default to 0, absent or zero `maxSize` to no
upper bound (`args.maxSize || Infinity`), and an absent name pattern
matches everything.  `fs.readdir`'s `ENOENT` is caught and mapped to the
"Directory not found" message carrying the resolved path; other errors are
rethrown raw. -/
def searchFiles (home : String) (st : FsState) (mtimes : List (String × Nat))
    (directoryPath : Option String) (fileNamePattern : Option String)
    (minSize maxSize modifiedSince : Option Nat) :
    Except FsError (List FoundFile) :=
  let target := match directoryPath with
    | some d => resolveJoin home d
    | none => resolveJoin home ""
  if !(strStartsWith target home) then .error .pathRestricted
  else if dirExists st target then
    let keep := fun (p : String) (size : Nat) =>
      (match fileNamePattern with
        | some pat => strHasOcc (baseName p) pat
        | none => true) &&
      (minSize.getD 0 ≤ size) &&
      (match maxSize with
        | some (m + 1) => size ≤ m + 1
        | _ => true) &&
      (modifiedSince.getD 0 ≤ getMtime mtimes p)
    .ok ((st.files.filter (fun e => parentDir e.1 == target && keep e.1 e.2.data.length)).map
          (fun e => ⟨baseName e.1, e.1, e.2.data.length, getMtime mtimes e.1⟩) ++
        (st.zips.filter (fun e => parentDir e.1 == target && keep e.1 0)).map
          (fun e => ⟨baseName e.1, e.1, 0, getMtime mtimes e.1⟩))
  else if fileExists st target || zipExists st target then .error (.rawFs "ENOTDIR")
  else .error (.notFoundMsg target)

/-! ### Archive engine (`zipDirectory` / `unzipFile`) -/

/-- Relative entry name of `p` below `src`: drop `src` plus one separator. -/
def relName (src p : String) : String := ⟨p.data.drop (src.data.length + 1)⟩

/-- Whether an entry name denotes a directory: `/\/$/.test(entry.fileName)`. -/
def endsWithSlash (s : String) : Bool := s.data.getLast? == some '/'

/-- The entries `archive.directory(sourceDir, false)` produces: every
directory below `sourceDir` as a trailing-slash entry, and every file below
`sourceDir` under its relative forward-slash name.  (Zip archives nested
inside `sourceDir` are not re-modelled; directory-listing order is the state
order — the specification guarantees no ordering.) -/
def zipEntriesOf (st : FsState) (src : String) : List ZipEntry :=
  (st.dirs.filter (fun d => strStartsWith d (src ++ "/"))).map
      (fun d => ⟨relName src d ++ "/", ""⟩) ++
    (st.files.filter (fun e => strStartsWith e.1 (src ++ "/"))).map
      (fun e => ⟨relName src e.1, e.2⟩)

/-- `zipDirectory` (`server.js:663`): sandbox-check both arguments, ensure
the output's parent directory, then stream the source directory into the
archive.  A missing (or non-directory) source makes `archiver` emit the
underlying `ENOENT`, which rejects the promise unmapped.  (The empty write
stream the failing call leaves behind is abstracted away.) -/
def zipDirectory (home : String) (st : FsState) (directoryPath outputPath : String) :
    FsState × Except FsError Unit :=
  if !(sandboxOk home directoryPath) || !(sandboxOk home outputPath) then
    (st, .error .pathRestricted)
  else
    let src := resolveJoin home directoryPath
    let out := resolveJoin home outputPath
    let st1 := ensureDir st (parentDir out)
    if dirExists st1 src then (setZip st1 out (zipEntriesOf st1 src), .ok ())
    else (st1, .error (.rawFs "ENOENT"))

/-- yauzl's file-name decoding with default options (`decodeStrings` true,
`strictFileNames` false — `server.js:706` passes only `lazyEntries`): every
backslash in the entry name is replaced by a forward slash before
validation. -/
def decodeEntryName (name : String) : String :=
  ⟨name.data.map (fun c => if c = '\\' then '/' else c)⟩

/-- The `/^[a-zA-Z]:/.test(fileName) || /^\//.test(fileName)` test of
yauzl's `validateFileName`: a leading slash or a drive-letter prefix. -/
def isAbsoluteName (name : String) : Bool :=
  match name.data with
  | [] => false
  | c :: rest => c == '/' || (c.isAlpha && rest.head? == some ':')

/-- yauzl's `validateFileName`, run on every entry name when
`decodeStrings` is enabled (the default): a backslash, an absolute name, or
a `..` path segment makes the entry invalid, returning the error message
(the backslash branch is unreachable after `decodeEntryName` has replaced
backslashes, matching the default `strictFileNames: false`). -/
def validateFileName (name : String) : Option String :=
  if name.data.contains '\\' then some ("invalid characters in fileName: " ++ name)
  else if isAbsoluteName name then some ("absolute path: " ++ name)
  else if (splitPath name).contains ".." then some ("invalid relative path: " ++ name)
  else none

/-- Extraction of one (already decoded and validated) entry
(`zipfile.on('entry', ...)`): the target is
`path.join(destinationPath, entry.fileName)` — `server.js` itself performs
no confinement check on the entry name — and the entry is written there
(directory entries via `ensureDir`, file entries by creating the parent
chain and streaming the bytes). -/
def applyEntry (dest : String) (st : FsState) (e : ZipEntry) : FsState :=
  let entryPath := resolveJoin dest e.name
  if endsWithSlash e.name then ensureDir st entryPath
  else setFile (ensureDir st (parentDir entryPath)) entryPath e.data

/-- Sequential extraction: before emitting each `entry` event, yauzl decodes
the entry name and runs `validateFileName` on it; an invalid name makes
yauzl emit an `error` event on the zipfile (and auto-close) before the entry
handler runs.  `server.js` registers no `error` listener on the zipfile, so
that event is unhandled: extraction stops, the promise never settles, and
the error escapes unhandled (`FsError.unhandledError`).  Valid entries are
written one at a time with `applyEntry`. -/
def unzipEntries (dest : String) (st : FsState) :
    List ZipEntry → FsState × Except FsError Unit
  | [] => (st, .ok ())
  | e :: rest =>
    let n := decodeEntryName e.name
    match validateFileName n with
    | some msg => (st, .error (.unhandledError msg))
    | none => unzipEntries dest (applyEntry dest st ⟨n, e.data⟩) rest

/-- `unzipFile` (`server.js:693`): sandbox-check both arguments, ensure the
destination directory, open the archive (a missing archive rejects with the
raw `ENOENT` from `yauzl.open`; a non-zip file would reject with a different
raw error, which this model does not distinguish), then extract the entries
sequentially with `unzipEntries`. -/
def unzipFile (home : String) (st : FsState) (filePath destinationPath : String) :
    FsState × Except FsError Unit :=
  if !(sandboxOk home filePath) || !(sandboxOk home destinationPath) then
    (st, .error .pathRestricted)
  else
    let src := resolveJoin home filePath
    let dest := resolveJoin home destinationPath
    let st1 := ensureDir st dest
    match getZip st1 src with
    | none => (st1, .error (.rawFs "ENOENT"))
    | some es => unzipEntries dest st1 es

/-! ### Sample states used by the concrete theorems -/

/-- A home directory with no user files. -/
def stEmpty : FsState :=
  { files := [], dirs := ["/", "/home", "/home/user"], zips := [] }

/-- Home with a single file whose content repeats the edit pattern twice. -/
def stDup : FsState :=
  { files := [("/home/user/d.txt", "duplicate content duplicate content")],
    dirs := ["/", "/home", "/home/user"], zips := [] }

/-- Home with the `replaceString` example file. -/
def stOne : FsState :=
  { files := [("/home/user/one.txt", "one two one three")],
    dirs := ["/", "/home", "/home/user"], zips := [] }

/-- Home with the unique-edit example file. -/
def stUnique : FsState :=
  { files := [("/home/user/u.txt", "This is some content. This is unique.")],
    dirs := ["/", "/home", "/home/user"], zips := [] }

/-- Home with a file `b` reachable through the traversal path `a/../b`. -/
def stB : FsState :=
  { files := [("/home/user/b", "inside")],
    dirs := ["/", "/home", "/home/user"], zips := [] }

/-- Home with a malicious archive whose single entry is named
`../evil.txt`, plus an (empty) extraction destination. -/
def stZipSlip : FsState :=
  { files := [],
    dirs := ["/", "/home", "/home/user", "/home/user/dest"],
    zips := [("/home/user/a.zip", [⟨"../evil.txt", "pwned"⟩])] }

/-- Round-trip start state: `data` holds the two specification files, `out`
is the (empty) extraction destination. -/
def stRound : FsState :=
  { files := [("/home/user/data/file.txt", "Hello\nWorld\nTest\n"),
              ("/home/user/data/file2.txt", "Another file\n")],
    dirs := ["/", "/home", "/home/user", "/home/user/data", "/home/user/out"],
    zips := [] }

/-- State after compressing `data` to `archive.zip` in the round trip. -/
def stRoundZipped : FsState :=
  (zipDirectory "/home/user" stRound "data" "archive.zip").1

/-- Final state of the round trip, after extracting into `out`. -/
def stRoundDone : FsState :=
  (unzipFile "/home/user" stRoundZipped "archive.zip" "out").1

deriving instance DecidableEq for Except

/-! ### Helper lemmas -/

/-- A nonempty list is never a prefix of the empty list. -/
theorem isPrefixOf_snoc_nil (l : List Char) (y : Char) :
    (l ++ [y]).isPrefixOf ([] : List Char) = false := by
  cases l <;> simp [List.isPrefixOf]

/-- Removing a common appended element from both sides of a character-list
prefix test preserves the test. -/
theorem isPrefixOf_snoc_cancel :
    ∀ (a b : List Char) (c : Char),
      (a ++ [c]).isPrefixOf (b ++ [c]) = true → a.isPrefixOf b = true := by
  intro a
  induction a with
  | nil => intro b c _; simp [List.isPrefixOf]
  | cons x xs ih =>
    intro b c h
    cases b with
    | nil =>
      exfalso
      simp only [List.cons_append, List.nil_append, List.isPrefixOf,
        Bool.and_eq_true, isPrefixOf_snoc_nil] at h
      exact absurd h.2 (by simp)
    | cons y ys =>
      simp only [List.cons_append, List.isPrefixOf, Bool.and_eq_true] at h ⊢
      exact ⟨h.1, ih ys c h.2⟩

/-- If the global count of a pattern in a string is zero, global replacement
leaves the string unchanged. -/
theorem replAllAux_eq_of_countAux_zero (pat repl : List Char) :
    ∀ s : List Char, countAux pat 0 s = 0 → replAllAux pat repl 0 s = s := by
  intro s
  induction s with
  | nil => intro _; simp [replAllAux]
  | cons c rest ih =>
    intro h
    by_cases hp : pat.isPrefixOf (c :: rest) = true
    · simp [countAux, hp] at h
    · simp only [countAux, hp] at h
      simp only [replAllAux, hp]
      simp only [Bool.false_eq_true, if_false] at h ⊢
      rw [ih h]

/-- String-level version: zero occurrences make `strReplaceAll` the
identity. -/
theorem strReplaceAll_of_countZero (s pat repl : String)
    (h : strCountOccs s pat = 0) : strReplaceAll s pat repl = s := by
  unfold strCountOccs listCountOccs at h
  unfold strReplaceAll listReplaceAll
  by_cases hp : pat.data = []
  · simp [hp] at h
  · simp only [hp, if_false] at h ⊢
    rw [replAllAux_eq_of_countAux_zero pat.data repl.data s.data h]

/-- Reading back the file just written. -/
theorem getFile_setFile_same (st : FsState) (p c : String) :
    getFile (setFile st p c) p = some c := by
  simp [getFile, setFile, List.find?]

/-- A freshly written file makes the entry exist. -/
theorem entryExists_setFile_same (st : FsState) (p c : String) :
    entryExists (setFile st p c) p = true := by
  simp [entryExists, fileExists, getFile_setFile_same]

/-- A filter whose predicate holds everywhere is the identity. -/
theorem filter_of_all {α : Type} (p : α → Bool) :
    ∀ l : List α, l.all p = true → l.filter p = l := by
  intro l
  induction l with
  | nil => intro _; rfl
  | cons a rest ih =>
    intro h
    simp only [List.all_cons, Bool.and_eq_true] at h
    simp [List.filter, h.1, ih h.2]

/-! ### Claims -/

/-- C2, counterexample: the sandbox check accepts the user path
`../user2/secret.txt` under TrustedRoot `/home/user`, although the resolved
path `/home/user2/secret.txt` is NOT a descendant of `/home/user` under the
prefix-with-trailing-separator rule — the sibling directory sharing the raw
string prefix is mistaken for a descendant. -/
theorem sandbox_sibling_counterexample :
    sandboxOk "/home/user" "../user2/secret.txt" = true ∧
    descendantWithSep "/home/user"
      (resolveJoin "/home/user" "../user2/secret.txt") = false := by
  exact ⟨by decide, by decide⟩

/-- C2 (amended): the implemented sandbox check is a raw string-prefix test
without a trailing separator.  Every path whose resolved join is a
descendant of TrustedRoot under the trailing-separator rule is accepted, but
not conversely: a path resolving into a sibling directory that shares
TrustedRoot as a string prefix is accepted as well. -/
theorem sandbox_accepts_descendants (home rel : String)
    (h : descendantWithSep home (resolveJoin home rel) = true) :
    sandboxOk home rel = true := by
  unfold sandboxOk strStartsWith
  unfold descendantWithSep at h
  exact isPrefixOf_snoc_cancel home.data (resolveJoin home rel).data '/' h

/-- Witness for `sandbox_accepts_descendants` at a concrete descendant. -/
theorem sandbox_accepts_descendants_witness :
    descendantWithSep "/home/user" (resolveJoin "/home/user" "docs/notes.txt") = true ∧
    sandboxOk "/home/user" "docs/notes.txt" = true :=
  ⟨by decide, sandbox_accepts_descendants "/home/user" "docs/notes.txt" (by decide)⟩

/-- C3, counterexample: the user path `a/../b` contains a parent-directory
segment, yet path validation does not fail: the sandbox check accepts it and
`readFile` proceeds to the filesystem, successfully reading
`/home/user/b`. -/
theorem dotdot_accepted_counterexample :
    hasParentSeg "a/../b" = true ∧
    sandboxOk "/home/user" "a/../b" = true ∧
    readFile "/home/user" stB "a/../b" = .ok "inside" :=
  ⟨by decide, by decide, rfl⟩

/-- C3 (amended): a `..` segment is not rejected unconditionally.  The path
is joined onto TrustedRoot and lexically resolved, and only the resulting
string-prefix check decides: `a/../b` (which normalizes back inside) is
accepted, `../outside.txt` (which resolves outside) is rejected; whenever
the check rejects, the operation fails with the path-restriction error
independently of the filesystem state, i.e. before any filesystem access. -/
theorem dotdot_amended :
    (hasParentSeg "a/../b" = true ∧ sandboxOk "/home/user" "a/../b" = true) ∧
    (hasParentSeg "../outside.txt" = true ∧
      sandboxOk "/home/user" "../outside.txt" = false) ∧
    ∀ (home : String) (st : FsState) (rel : String),
      sandboxOk home rel = false →
        readFile home st rel = .error .pathRestricted := by
  refine ⟨⟨by decide, by decide⟩, ⟨by decide, by decide⟩, ?_⟩
  intro home st rel h
  simp [readFile, h]

/-- Witness for `dotdot_amended` at a concrete rejected path. -/
theorem dotdot_amended_witness :
    sandboxOk "/home/user" "../outside.txt" = false ∧
    readFile "/home/user" stEmpty "../outside.txt" = .error .pathRestricted :=
  ⟨by decide, dotdot_amended.2.2 "/home/user" stEmpty "../outside.txt" (by decide)⟩

/-- C4: for an existing file, `editFile` counts the occurrences of
`oldContent` in the content: zero occurrences fail with the NotFound-class
"was not found" error and leave the state unchanged; more than one fails
with the NotUnique error reporting the count and leaves the state unchanged;
exactly one occurrence rewrites the file with that occurrence replaced by
`newContent`. -/
theorem editFile_unique_spec (home : String) (st : FsState)
    (filePath oldContent newContent content : String)
    (hs : sandboxOk home filePath = true)
    (hf : getFile st (resolveJoin home filePath) = some content) :
    (strCountOccs content oldContent = 0 →
      editFile home st filePath oldContent newContent
          = (st, .error (.noMatch (resolveJoin home filePath))) ∧
        isNotFoundClass (.noMatch (resolveJoin home filePath)) = true) ∧
    (1 < strCountOccs content oldContent →
      editFile home st filePath oldContent newContent
        = (st, .error (.notUniqueMsg (strCountOccs content oldContent)))) ∧
    (strCountOccs content oldContent = 1 →
      editFile home st filePath oldContent newContent
        = (setFile st (resolveJoin home filePath)
            (strReplaceFirst content oldContent newContent), .ok ())) := by
  refine ⟨fun h => ?_, fun h => ?_, fun h => ?_⟩
  · exact ⟨by simp [editFile, hs, hf, h], by simp [isNotFoundClass]⟩
  · have h0 : ¬ strCountOccs content oldContent = 0 := by omega
    simp [editFile, hs, hf, h0, h]
  · simp [editFile, hs, hf, h]

/-- Witness for `editFile_unique_spec`: the specification's duplicate
example fails with NotUnique(2) and leaves the file unmodified. -/
theorem editFile_unique_spec_witness :
    sandboxOk "/home/user" "d.txt" = true ∧
    getFile stDup (resolveJoin "/home/user" "d.txt")
      = some "duplicate content duplicate content" ∧
    strCountOccs "duplicate content duplicate content" "duplicate content" = 2 ∧
    editFile "/home/user" stDup "d.txt" "duplicate content" "x"
      = (stDup, .error (.notUniqueMsg
          (strCountOccs "duplicate content duplicate content" "duplicate content"))) :=
  ⟨by decide, rfl, by decide,
    (editFile_unique_spec "/home/user" stDup "d.txt" "duplicate content" "x"
      "duplicate content duplicate content" (by decide) rfl).2.1 (by decide)⟩

/-- C5: for an existing file, `replaceString` rewrites the file with every
occurrence of `oldString` replaced; with zero occurrences the rewrite is the
identity (operation succeeds, content unchanged), and once no occurrences
remain a repeated identical call yields the same content; the
specification's example replaces both occurrences. -/
theorem replaceString_spec (home : String) (st : FsState)
    (filePath oldString newString content : String)
    (hs : sandboxOk home filePath = true)
    (hf : getFile st (resolveJoin home filePath) = some content) :
    replaceString home st filePath oldString newString
      = (setFile st (resolveJoin home filePath)
          (strReplaceAll content oldString newString), .ok ()) ∧
    (strCountOccs content oldString = 0 →
      strReplaceAll content oldString newString = content) ∧
    (strCountOccs (strReplaceAll content oldString newString) oldString = 0 →
      strReplaceAll (strReplaceAll content oldString newString) oldString newString
        = strReplaceAll content oldString newString) ∧
    strReplaceAll "one two one three" "one" "zero" = "zero two zero three" := by
  refine ⟨by simp [replaceString, hs, hf], fun h => strReplaceAll_of_countZero _ _ _ h,
    fun h => strReplaceAll_of_countZero _ _ _ h, by decide⟩

/-- Witness for `replaceString_spec` at the specification's example file. -/
theorem replaceString_spec_witness :
    sandboxOk "/home/user" "one.txt" = true ∧
    getFile stOne (resolveJoin "/home/user" "one.txt") = some "one two one three" ∧
    replaceString "/home/user" stOne "one.txt" "one" "zero"
      = (setFile stOne "/home/user/one.txt" "zero two zero three", .ok ()) :=
  ⟨by decide, rfl,
    (replaceString_spec "/home/user" stOne "one.txt" "one" "zero"
      "one two one three" (by decide) rfl).1⟩

/-- C6: `createFile` (exclusive create) fails with AlreadyExists and leaves
the state unchanged when an entry exists at the target; when no entry
exists (and the parent directory does), it writes the content, and calling
it again on the same path fails with AlreadyExists while the file keeps the
content of the first call — the failed exclusive create is never retried as
an overwrite. -/
theorem createFile_exclusive_spec (home : String) (st : FsState)
    (filePath c1 c2 : String) (hs : sandboxOk home filePath = true) :
    (entryExists st (resolveJoin home filePath) = true →
      createFile home st filePath c1 = (st, .error .alreadyExists)) ∧
    (entryExists st (resolveJoin home filePath) = false →
      dirExists st (parentDir (resolveJoin home filePath)) = true →
      createFile home st filePath c1
          = (setFile st (resolveJoin home filePath) c1, .ok ()) ∧
        getFile (setFile st (resolveJoin home filePath) c1)
          (resolveJoin home filePath) = some c1 ∧
        createFile home (setFile st (resolveJoin home filePath) c1) filePath c2
          = (setFile st (resolveJoin home filePath) c1, .error .alreadyExists)) := by
  refine ⟨fun he => by simp [createFile, hs, he], fun he hp => ?_⟩
  refine ⟨by simp [createFile, hs, he, hp], getFile_setFile_same st _ c1, ?_⟩
  simp [createFile, hs, entryExists_setFile_same]

/-- Witness for `createFile_exclusive_spec`: create then re-create
`n.txt`. -/
theorem createFile_exclusive_spec_witness :
    sandboxOk "/home/user" "n.txt" = true ∧
    entryExists stEmpty (resolveJoin "/home/user" "n.txt") = false ∧
    dirExists stEmpty (parentDir (resolveJoin "/home/user" "n.txt")) = true ∧
    createFile "/home/user" stEmpty "n.txt" "first"
      = (setFile stEmpty "/home/user/n.txt" "first", .ok ()) ∧
    getFile (setFile stEmpty "/home/user/n.txt" "first") "/home/user/n.txt"
      = some "first" ∧
    createFile "/home/user" (setFile stEmpty "/home/user/n.txt" "first") "n.txt" "second"
      = (setFile stEmpty "/home/user/n.txt" "first", .error .alreadyExists) := by
  have h := (createFile_exclusive_spec "/home/user" stEmpty "n.txt" "first" "second"
    (by decide)).2 (by decide) (by decide)
  exact ⟨by decide, by decide, by decide, h.1, h.2.1, h.2.2⟩

/-- Discriminator: is the failure one of the NotFound messages the code
itself builds ("File not found at: ...")? -/
def isMappedNotFound : FsError → Bool
  | .notFoundMsg _ => true
  | _ => false

/-- C7, counterexample: `readFile` on a missing file propagates the raw
`ENOENT` of `fs.readFile` — it is not mapped to a NotFound failure carrying
the resolved path, contradicting the claimed uniformity. -/
theorem readFile_raw_error_counterexample :
    readFile "/home/user" stEmpty "missing.txt" = .error (.rawFs "ENOENT") ∧
    isMappedNotFound (.rawFs "ENOENT") = false :=
  ⟨rfl, by decide⟩

/-- C7 (amended): the not-found mapping is not uniform, and rethrown raw
errors play the IOError role.  With nothing at the target (and, for the
append case, a missing parent directory), `appendToFile`, `prependToFile`,
`searchInFile`, `changePermissions`, `listRecentFiles` and `searchFiles`
catch the underlying `ENOENT` and fail with the NotFound message carrying
the resolved path, while `readFile`, `getFileInfo`, `getDirectoryInfo` and
`deleteFile` have no handler and propagate the raw filesystem error
unchanged; and in all of them every other unexpected filesystem error —
`EISDIR` when reading, writing or unlinking a directory, `ENOTDIR` when
listing a file — propagates unchanged, carrying the underlying cause (there
is no separate wrapper type). -/
theorem notfound_mapping_spec (home : String) (st : FsState)
    (filePath content : String) (mode : Nat) (mtimes : List (String × Nat))
    (limit : Option Nat) (pat : Option String) (mn mx ms : Option Nat)
    (hs : sandboxOk home filePath = true) :
    (getFile st (resolveJoin home filePath) = none →
      dirExists st (resolveJoin home filePath) = false →
      getZip st (resolveJoin home filePath) = none →
      dirExists st (parentDir (resolveJoin home filePath)) = false →
      readFile home st filePath = .error (.rawFs "ENOENT") ∧
      getFileInfo home st filePath = .error (.rawFs "ENOENT") ∧
      getDirectoryInfo home st filePath = .error (.rawFs "ENOENT") ∧
      deleteFile home st filePath = (st, .error (.rawFs "ENOENT")) ∧
      appendToFile home st filePath content
        = (st, .error (.notFoundMsg (resolveJoin home filePath))) ∧
      prependToFile home st filePath content
        = (st, .error (.notFoundMsg (resolveJoin home filePath))) ∧
      searchInFile home st filePath content
        = .error (.notFoundMsg (resolveJoin home filePath)) ∧
      changePermissions home st filePath mode
        = (st, .error (.notFoundMsg (resolveJoin home filePath))) ∧
      listRecentFiles home st mtimes (some filePath) limit
        = .error (.notFoundMsg (resolveJoin home filePath)) ∧
      searchFiles home st mtimes (some filePath) pat mn mx ms
        = .error (.notFoundMsg (resolveJoin home filePath))) ∧
    (getFile st (resolveJoin home filePath) = none →
      getZip st (resolveJoin home filePath) = none →
      dirExists st (resolveJoin home filePath) = true →
      readFile home st filePath = .error (.rawFs "EISDIR") ∧
      appendToFile home st filePath content = (st, .error (.rawFs "EISDIR")) ∧
      prependToFile home st filePath content = (st, .error (.rawFs "EISDIR")) ∧
      searchInFile home st filePath content = .error (.rawFs "EISDIR") ∧
      deleteFile home st filePath = (st, .error (.rawFs "EISDIR"))) ∧
    (∀ fcontent : String,
      getFile st (resolveJoin home filePath) = some fcontent →
      dirExists st (resolveJoin home filePath) = false →
      getDirectoryInfo home st filePath = .error (.rawFs "ENOTDIR") ∧
      listRecentFiles home st mtimes (some filePath) limit
        = .error (.rawFs "ENOTDIR") ∧
      searchFiles home st mtimes (some filePath) pat mn mx ms
        = .error (.rawFs "ENOTDIR")) := by
  have hs' : strStartsWith (resolveJoin home filePath) home = true := hs
  refine ⟨fun hf hd hz hp => ?_, fun hf hz hd => ?_, fun fcontent hf hd => ?_⟩
  · have hfe : fileExists st (resolveJoin home filePath) = false := by
      simp [fileExists, hf]
    have hze : zipExists st (resolveJoin home filePath) = false := by
      simp [zipExists, hz]
    refine ⟨?_, ?_, ?_, ?_, ?_, ?_, ?_, ?_, ?_, ?_⟩ <;>
      simp [readFile, getFileInfo, getDirectoryInfo, deleteFile, appendToFile,
        prependToFile, searchInFile, changePermissions, listRecentFiles,
        searchFiles, entryExists, hs, hs', hf, hd, hz, hp, hfe, hze]
  · have hfe : fileExists st (resolveJoin home filePath) = false := by
      simp [fileExists, hf]
    have hze : zipExists st (resolveJoin home filePath) = false := by
      simp [zipExists, hz]
    refine ⟨?_, ?_, ?_, ?_, ?_⟩ <;>
      simp [readFile, appendToFile, prependToFile, searchInFile, deleteFile,
        hs, hf, hd, hz, hfe, hze]
  · have hfe : fileExists st (resolveJoin home filePath) = true := by
      simp [fileExists, hf]
    refine ⟨?_, ?_, ?_⟩ <;>
      simp [getDirectoryInfo, listRecentFiles, searchFiles, hs, hs', hf, hd, hfe]

/-- Witness for `notfound_mapping_spec` at a concrete missing target. -/
theorem notfound_mapping_spec_witness :
    sandboxOk "/home/user" "ghostdir/g.txt" = true ∧
    getFile stEmpty (resolveJoin "/home/user" "ghostdir/g.txt") = none ∧
    readFile "/home/user" stEmpty "ghostdir/g.txt" = .error (.rawFs "ENOENT") ∧
    (appendToFile "/home/user" stEmpty "ghostdir/g.txt" "x")
      = (stEmpty, .error (.notFoundMsg (resolveJoin "/home/user" "ghostdir/g.txt"))) ∧
    listRecentFiles "/home/user" stEmpty [] (some "ghostdir/g.txt") none
      = .error (.notFoundMsg (resolveJoin "/home/user" "ghostdir/g.txt")) ∧
    searchFiles "/home/user" stEmpty [] (some "ghostdir/g.txt") none none none none
      = .error (.notFoundMsg (resolveJoin "/home/user" "ghostdir/g.txt")) := by
  have h := (notfound_mapping_spec "/home/user" stEmpty "ghostdir/g.txt" "x" 493
    [] none none none none none (by decide)).1 rfl (by decide) rfl (by decide)
  exact ⟨by decide, rfl, h.1, h.2.2.2.2.1, h.2.2.2.2.2.2.2.2.1, h.2.2.2.2.2.2.2.2.2⟩

/-- C8: all four rename/move operations sandbox-check both path arguments
independently and fail with the path-restriction error, with the state
untouched (so before any filesystem call), as soon as either argument fails
the check — also when the other argument is valid. -/
theorem rename_move_validate_both (home : String) (st : FsState) (a b : String)
    (h : sandboxOk home a = false ∨ sandboxOk home b = false) :
    renameFile home st a b = (st, .error .pathRestricted) ∧
    renameDirectory home st a b = (st, .error .pathRestricted) ∧
    moveFile home st a b = (st, .error .pathRestricted) ∧
    moveDirectory home st a b = (st, .error .pathRestricted) := by
  rcases h with h | h <;>
    simp [renameFile, renameDirectory, moveFile, moveDirectory, h]

/-- Witness for `rename_move_validate_both`: a valid source and an escaping
destination. -/
theorem rename_move_validate_both_witness :
    sandboxOk "/home/user" "ok.txt" = true ∧
    sandboxOk "/home/user" "../../outside.txt" = false ∧
    renameFile "/home/user" stEmpty "ok.txt" "../../outside.txt"
      = (stEmpty, .error .pathRestricted) ∧
    moveFile "/home/user" stEmpty "ok.txt" "../../outside.txt"
      = (stEmpty, .error .pathRestricted) := by
  have h := rename_move_validate_both "/home/user" stEmpty "ok.txt" "../../outside.txt"
    (Or.inr (by decide))
  exact ⟨by decide, by decide, h.1, h.2.2.1⟩

/-- `ensureDir` does not change the recorded zip archives. -/
theorem getZip_ensureDir (st : FsState) (d p : String) :
    getZip (ensureDir st d) p = getZip st p := by
  unfold ensureDir getZip
  split <;> rfl

/-- C9: compressing the specification's two-file directory and extracting
the archive into the empty directory `out` succeeds and reproduces exactly
the two files with identical content; and `zipDirectory` on a source
directory that does not exist fails with the NotFound-class `ENOENT`
error. -/
theorem zip_roundtrip_spec (home : String) (st : FsState)
    (directoryPath outputPath : String)
    (h1 : sandboxOk home directoryPath = true)
    (h2 : sandboxOk home outputPath = true)
    (h3 : dirExists (ensureDir st (parentDir (resolveJoin home outputPath)))
        (resolveJoin home directoryPath) = false) :
    (zipDirectory home st directoryPath outputPath).2 = .error (.rawFs "ENOENT") ∧
    isNotFoundClass (.rawFs "ENOENT") = true ∧
    (zipDirectory "/home/user" stRound "data" "archive.zip").2 = .ok () ∧
    (unzipFile "/home/user" stRoundZipped "archive.zip" "out").2 = .ok () ∧
    getFile stRoundDone "/home/user/out/file.txt" = some "Hello\nWorld\nTest\n" ∧
    getFile stRoundDone "/home/user/out/file2.txt" = some "Another file\n" ∧
    (stRoundDone.files.filter
        (fun e => strStartsWith e.1 "/home/user/out/")).map (fun e => e.1)
      = ["/home/user/out/file2.txt", "/home/user/out/file.txt"] := by
  refine ⟨?_, by decide, rfl, rfl, rfl, rfl, by decide⟩
  simp [zipDirectory, h1, h2, h3]

/-- Witness for `zip_roundtrip_spec`: zipping the missing directory `nope`
fails with `ENOENT`. -/
theorem zip_roundtrip_spec_witness :
    sandboxOk "/home/user" "nope" = true ∧
    (zipDirectory "/home/user" stEmpty "nope" "z.zip").2 = .error (.rawFs "ENOENT") :=
  ⟨by decide,
    (zip_roundtrip_spec "/home/user" stEmpty "nope" "z.zip"
      (by decide) (by decide) (by decide)).1⟩

/-- C10: when the sandbox check passes and nothing exists at (or below) the
resolved target, `deleteDirectory` still reports success — the forced
recursive `fs.rm` suppresses the not-found condition — and the filesystem
state is completely unchanged. -/
theorem deleteDirectory_missing_ok (home : String) (st : FsState)
    (directoryPath : String)
    (hs : sandboxOk home directoryPath = true)
    (hfAll : st.files.all
      (fun e => !(underOrEq (resolveJoin home directoryPath) e.1)) = true)
    (hdAll : st.dirs.all
      (fun d => !(underOrEq (resolveJoin home directoryPath) d)) = true)
    (hzAll : st.zips.all
      (fun e => !(underOrEq (resolveJoin home directoryPath) e.1)) = true) :
    deleteDirectory home st directoryPath = (st, .ok ()) := by
  simp [deleteDirectory, hs, filter_of_all _ _ hfAll, filter_of_all _ _ hdAll,
    filter_of_all _ _ hzAll]

/-- Witness for `deleteDirectory_missing_ok`: deleting the non-existent
`ghost_dir` succeeds and changes nothing. -/
theorem deleteDirectory_missing_ok_witness :
    sandboxOk "/home/user" "ghost_dir" = true ∧
    deleteDirectory "/home/user" stEmpty "ghost_dir" = (stEmpty, .ok ()) :=
  ⟨by decide, deleteDirectory_missing_ok "/home/user" stEmpty "ghost_dir"
    (by decide) (by decide) (by decide) (by decide)⟩


/-! ### Path-hygiene lemmas for the extraction confinement theorem -/

/-- Every component produced by the path splitter is free of separators. -/
theorem splitSegsAux_no_slash :
    ∀ (cs cur : List Char), '/' ∉ cur →
      ∀ seg ∈ splitSegsAux cur cs, '/' ∉ seg.data := by
  intro cs
  induction cs with
  | nil =>
    intro cur hcur seg hseg
    simp only [splitSegsAux] at hseg
    rw [List.mem_singleton.mp hseg]
    simpa using hcur
  | cons c rest ih =>
    intro cur hcur seg hseg
    by_cases hc : c = '/'
    · subst hc
      simp only [splitSegsAux, if_pos rfl] at hseg
      rcases List.mem_cons.mp hseg with h | h
      · rw [h]; simpa using hcur
      · exact ih [] (by simp) seg h
    · simp only [splitSegsAux, if_neg hc] at hseg
      refine ih (c :: cur) ?_ seg hseg
      intro h
      rcases List.mem_cons.mp h with h' | h'
      · exact hc h'.symm
      · exact hcur h'

/-- Components of `splitPath` contain no separator. -/
theorem splitPath_no_slash (s : String) : ∀ seg ∈ splitPath s, '/' ∉ seg.data :=
  splitSegsAux_no_slash s.data [] (by simp)

/-- Every output component of the normalizer comes from the accumulator or
from the input. -/
theorem normSegsAux_mem :
    ∀ (l acc : List String) (s : String),
      s ∈ normSegsAux acc l → s ∈ acc ∨ s ∈ l := by
  intro l
  induction l with
  | nil =>
    intro acc s h
    simp only [normSegsAux] at h
    exact Or.inl (by simpa using h)
  | cons seg rest ih =>
    intro acc s h
    by_cases h1 : seg = "" ∨ seg = "."
    · simp only [normSegsAux, if_pos h1] at h
      rcases ih acc s h with ha | hr
      exacts [Or.inl ha, Or.inr (List.mem_cons_of_mem _ hr)]
    · by_cases h2 : seg = ".."
      · simp only [normSegsAux, if_neg h1, if_pos h2] at h
        rcases ih acc.tail s h with ha | hr
        · exact Or.inl (List.mem_of_mem_tail ha)
        · exact Or.inr (List.mem_cons_of_mem _ hr)
      · simp only [normSegsAux, if_neg h1, if_neg h2] at h
        rcases ih (seg :: acc) s h with ha | hr
        · rcases List.mem_cons.mp ha with he | ha'
          · exact Or.inr (he ▸ List.mem_cons_self _ _)
          · exact Or.inl ha'
        · exact Or.inr (List.mem_cons_of_mem _ hr)

/-- Output components of the normalizer are never empty, `.` or `..`
(the normalizer drops or consumes those), provided the accumulator already
satisfies this. -/
theorem normSegsAux_notSpecial :
    ∀ (l acc : List String),
      (∀ s ∈ acc, s ≠ "" ∧ s ≠ "." ∧ s ≠ "..") →
      ∀ s ∈ normSegsAux acc l, s ≠ "" ∧ s ≠ "." ∧ s ≠ ".." := by
  intro l
  induction l with
  | nil =>
    intro acc hacc s h
    simp only [normSegsAux] at h
    exact hacc s (by simpa using h)
  | cons seg rest ih =>
    intro acc hacc s h
    by_cases h1 : seg = "" ∨ seg = "."
    · simp only [normSegsAux, if_pos h1] at h
      exact ih acc hacc s h
    · by_cases h2 : seg = ".."
      · simp only [normSegsAux, if_neg h1, if_pos h2] at h
        exact ih acc.tail (fun t ht => hacc t (List.mem_of_mem_tail ht)) s h
      · simp only [normSegsAux, if_neg h1, if_neg h2] at h
        refine ih (seg :: acc) ?_ s h
        intro t ht
        rcases List.mem_cons.mp ht with he | ht'
        · subst he
          exact ⟨fun he' => h1 (Or.inl he'), fun he' => h1 (Or.inr he'), h2⟩
        · exact hacc t ht'

/-- The rendering fold is a concatenation of `/`-prefixed segments. -/
theorem foldl_render :
    ∀ (D : List String) (a : List Char),
      D.foldl (fun acc seg => acc ++ '/' :: seg.data) a
        = a ++ D.flatMap (fun seg => '/' :: seg.data) := by
  intro D
  induction D with
  | nil => intro a; simp
  | cons d ds ih =>
    intro a
    simp only [List.foldl_cons, List.flatMap_cons, ih, List.append_assoc,
      List.cons_append, List.nil_append]

/-- The character list of a nonempty rendered path. -/
theorem renderAbs_data (d : String) (ds : List String) :
    (renderAbs (d :: ds)).data = (d :: ds).flatMap (fun seg => '/' :: seg.data) := by
  show (d :: ds).foldl (fun acc seg => acc ++ '/' :: seg.data) [] = _
  rw [foldl_render]
  rfl

/-- Scanning a separator-free segment just accumulates its characters. -/
theorem splitSegsAux_seg :
    ∀ (seg cur cs : List Char), '/' ∉ seg →
      splitSegsAux cur (seg ++ cs) = splitSegsAux (seg.reverse ++ cur) cs := by
  intro seg
  induction seg with
  | nil => intro cur cs _; simp
  | cons c s' ih =>
    intro cur cs hns
    have hc : ¬ c = '/' := by
      intro h
      exact hns (by rw [h]; exact List.mem_cons_self _ _)
    simp only [List.cons_append, splitSegsAux, if_neg hc]
    show splitSegsAux (c :: cur) (s' ++ cs) = splitSegsAux ((c :: s').reverse ++ cur) cs
    rw [ih (c :: cur) cs (fun h => hns (List.mem_cons_of_mem _ h))]
    rw [List.reverse_cons, List.append_assoc]
    rfl

/-- Splitting a rendered list of separator-free segments starting inside a
partial component recovers the component and the segments. -/
theorem splitSegsAux_flat :
    ∀ (D : List String) (cur : List Char),
      (∀ d ∈ D, '/' ∉ d.data) →
      splitSegsAux cur (D.flatMap (fun seg => '/' :: seg.data)) = ⟨cur.reverse⟩ :: D := by
  intro D
  induction D with
  | nil => intro cur _; simp [splitSegsAux]
  | cons d ds ih =>
    intro cur hD
    simp only [List.flatMap_cons, List.cons_append]
    show splitSegsAux cur ('/' :: (d.data ++ ds.flatMap fun seg => '/' :: seg.data)) = _
    simp only [splitSegsAux, if_pos rfl]
    rw [splitSegsAux_seg d.data [] _ (hD d (List.mem_cons_self _ _))]
    rw [ih (d.data.reverse ++ []) (fun x hx => hD x (List.mem_cons_of_mem _ hx))]
    simp

/-- Splitting a rendered nonempty path yields a leading empty component
followed by the segments. -/
theorem splitPath_renderAbs (D : List String) (hne : D ≠ [])
    (hD : ∀ d ∈ D, '/' ∉ d.data) : splitPath (renderAbs D) = "" :: D := by
  cases D with
  | nil => exact absurd rfl hne
  | cons d ds =>
    show splitSegsAux [] (renderAbs (d :: ds)).data = _
    rw [renderAbs_data]
    rw [splitSegsAux_flat (d :: ds) [] hD]
    rfl

/-- Normalization processes a concatenation left to right: the segments
accepted from the first part become the accumulator for the second. -/
theorem normSegsAux_append :
    ∀ (A B acc : List String),
      normSegsAux acc (A ++ B) = normSegsAux (normSegsAux acc A).reverse B := by
  intro A
  induction A with
  | nil => intro B acc; simp [normSegsAux]
  | cons seg rest ih =>
    intro B acc
    by_cases h1 : seg = "" ∨ seg = "."
    · simp only [List.cons_append, normSegsAux, if_pos h1]
      exact ih B acc
    · by_cases h2 : seg = ".."
      · simp only [List.cons_append, normSegsAux, if_neg h1, if_pos h2]
        exact ih B acc.tail
      · simp only [List.cons_append, normSegsAux, if_neg h1, if_neg h2]
        exact ih B (seg :: acc)

/-- Normalizing a list of already clean segments changes nothing. -/
theorem normSegsAux_id :
    ∀ (D acc : List String),
      (∀ s ∈ D, s ≠ "" ∧ s ≠ "." ∧ s ≠ "..") →
      normSegsAux acc D = acc.reverse ++ D := by
  intro D
  induction D with
  | nil => intro acc _; simp [normSegsAux]
  | cons d ds ih =>
    intro acc hD
    obtain ⟨h1, h2, h3⟩ := hD d (List.mem_cons_self _ _)
    simp only [normSegsAux, if_neg (not_or.mpr ⟨h1, h2⟩), if_neg h3]
    rw [ih (d :: acc) (fun s hs => hD s (List.mem_cons_of_mem _ hs))]
    simp

/-- On input without `..` segments the accumulator is never popped, so it
factors out of the normalization. -/
theorem normSegsAux_no_dotdot :
    ∀ (l acc : List String), ".." ∉ l →
      normSegsAux acc l = acc.reverse ++ normSegsAux [] l := by
  intro l
  induction l with
  | nil => intro acc _; simp [normSegsAux]
  | cons seg rest ih =>
    intro acc hnd
    have h2 : ¬ seg = ".." := fun h => hnd (h ▸ List.mem_cons_self _ _)
    have hrest : ".." ∉ rest := fun h => hnd (List.mem_cons_of_mem _ h)
    by_cases h1 : seg = "" ∨ seg = "."
    · simp only [normSegsAux, if_pos h1]
      exact ih acc hrest
    · simp only [normSegsAux, if_neg h1, if_neg h2]
      rw [ih (seg :: acc) hrest, ih [seg] hrest]
      simp

/-- A common left factor preserves the character-prefix test. -/
theorem isPrefixOf_append_both :
    ∀ (a b c : List Char), b.isPrefixOf c = true →
      (a ++ b).isPrefixOf (a ++ c) = true := by
  intro a
  induction a with
  | nil => intro b c h; simpa using h
  | cons x xs ih =>
    intro b c h
    simp only [List.cons_append, List.isPrefixOf, Bool.and_eq_true]
    exact ⟨by simp, ih b c h⟩

/-- Joining a `..`-free name onto a rendered clean path appends the name's
normalized segments. -/
theorem resolveJoin_renderAbs_no_dotdot (D : List String) (name : String)
    (hne : D ≠ [])
    (hD : ∀ d ∈ D, (d ≠ "" ∧ d ≠ "." ∧ d ≠ "..") ∧ '/' ∉ d.data)
    (hnd : ".." ∉ splitPath name) :
    resolveJoin (renderAbs D) name
      = renderAbs (D ++ normSegsAux [] (splitPath name)) := by
  unfold resolveJoin
  rw [splitPath_renderAbs D hne (fun d hd => (hD d hd).2)]
  rw [List.cons_append]
  rw [show normSegsAux [] ("" :: (D ++ splitPath name))
      = normSegsAux [] (D ++ splitPath name) from by simp [normSegsAux]]
  rw [normSegsAux_append D (splitPath name) []]
  rw [normSegsAux_id D [] (fun s hs => (hD s hs).1)]
  rw [show (([] : List String).reverse ++ D).reverse = D.reverse from by simp]
  rw [normSegsAux_no_dotdot (splitPath name) D.reverse hnd]
  rw [List.reverse_reverse]

/-- A rendered extension of a nonempty rendered path is the path itself or
lies strictly below it under the raw prefix test with a separator. -/
theorem underOrEq_renderAbs_append (D N : List String) (hne : D ≠ []) :
    underOrEq (renderAbs D) (renderAbs (D ++ N)) = true := by
  cases N with
  | nil => simp [underOrEq]
  | cons n ns =>
    cases D with
    | nil => exact absurd rfl hne
    | cons d ds =>
      have key : strStartsWith (renderAbs ((d :: ds) ++ n :: ns))
          (renderAbs (d :: ds) ++ "/") = true := by
        unfold strStartsWith
        rw [show (renderAbs (d :: ds) ++ "/").data
            = (renderAbs (d :: ds)).data ++ ['/'] from rfl]
        rw [renderAbs_data]
        rw [show ((d :: ds) ++ n :: ns) = d :: (ds ++ n :: ns) from rfl]
        rw [renderAbs_data]
        rw [show (d :: (ds ++ n :: ns)) = (d :: ds) ++ (n :: ns) from rfl,
          List.flatMap_append]
        apply isPrefixOf_append_both
        simp [List.flatMap_cons, List.isPrefixOf]
      simp only [underOrEq, Bool.or_eq_true, beq_iff_eq]
      exact Or.inr key

/-- Every entry name accepted by yauzl's validation resolves, relative to a
nonempty clean destination, to the destination itself or a path below it. -/
theorem validName_inside (D : List String) (hne : D ≠ [])
    (hD : ∀ d ∈ D, (d ≠ "" ∧ d ≠ "." ∧ d ≠ "..") ∧ '/' ∉ d.data)
    (name : String) (hv : validateFileName name = none) :
    underOrEq (renderAbs D) (resolveJoin (renderAbs D) name) = true := by
  have hnd : ".." ∉ splitPath name := by
    have hC : (splitPath name).contains ".." = false := by
      unfold validateFileName at hv
      split at hv
      · simp at hv
      · split at hv
        · simp at hv
        · split at hv
          · simp at hv
          · rename_i hc
            simpa using hc
    simpa using hC
  rw [resolveJoin_renderAbs_no_dotdot D name hne hD hnd]
  exact underOrEq_renderAbs_append D _ hne

/-- `parentDir` on a rendered clean nonempty path drops the last segment. -/
theorem parentDir_renderAbs (D : List String) (hne : D ≠ [])
    (hD : ∀ d ∈ D, (d ≠ "" ∧ d ≠ "." ∧ d ≠ "..") ∧ '/' ∉ d.data) :
    parentDir (renderAbs D) = renderAbs D.dropLast := by
  unfold parentDir
  rw [splitPath_renderAbs D hne (fun d hd => (hD d hd).2)]
  rw [show normSegsAux [] ("" :: D) = normSegsAux [] D from by simp [normSegsAux]]
  rw [normSegsAux_id D [] (fun s hs => (hD s hs).1)]
  rfl

/-- The parent directory of the resolved target of a validated entry name
is inside the destination — or it is the destination's own parent, for the
degenerate names whose normalization is empty (for example `"."`), whose
target is the destination itself. -/
theorem validName_parent_inside (D : List String) (hne : D ≠ [])
    (hD : ∀ d ∈ D, (d ≠ "" ∧ d ≠ "." ∧ d ≠ "..") ∧ '/' ∉ d.data)
    (name : String) (hv : validateFileName name = none) :
    underOrEq (renderAbs D) (parentDir (resolveJoin (renderAbs D) name)) = true ∨
      parentDir (resolveJoin (renderAbs D) name) = parentDir (renderAbs D) := by
  have hnd : ".." ∉ splitPath name := by
    have hC : (splitPath name).contains ".." = false := by
      unfold validateFileName at hv
      split at hv
      · simp at hv
      · split at hv
        · simp at hv
        · split at hv
          · simp at hv
          · rename_i hc
            simpa using hc
    simpa using hC
  have hN : ∀ s ∈ normSegsAux [] (splitPath name),
      (s ≠ "" ∧ s ≠ "." ∧ s ≠ "..") ∧ '/' ∉ s.data := by
    intro s hs
    refine ⟨normSegsAux_notSpecial _ [] (by simp) s hs, ?_⟩
    rcases normSegsAux_mem _ [] s hs with h | h
    · simp at h
    · exact splitPath_no_slash name s h
  have hDN : ∀ d ∈ D ++ normSegsAux [] (splitPath name),
      (d ≠ "" ∧ d ≠ "." ∧ d ≠ "..") ∧ '/' ∉ d.data := by
    intro d hd
    rcases List.mem_append.mp hd with h | h
    exacts [hD d h, hN d h]
  have hDNne : D ++ normSegsAux [] (splitPath name) ≠ [] := by
    cases D with
    | nil => exact absurd rfl hne
    | cons x xs => simp
  rw [resolveJoin_renderAbs_no_dotdot D name hne hD hnd]
  rw [parentDir_renderAbs _ hDNne hDN]
  cases hNn : normSegsAux [] (splitPath name) with
  | nil =>
    right
    rw [List.append_nil]
    rw [parentDir_renderAbs D hne hD]
  | cons n0 ns =>
    left
    rw [List.dropLast_append_of_ne_nil D (by simp)]
    exact underOrEq_renderAbs_append D _ hne

/-- `ensureDir` leaves the files untouched. -/
theorem ensureDir_files (st : FsState) (d : String) :
    (ensureDir st d).files = st.files := by
  unfold ensureDir; split <;> rfl

/-- `ensureDir` leaves the zips untouched. -/
theorem ensureDir_zips (st : FsState) (d : String) :
    (ensureDir st d).zips = st.zips := by
  unfold ensureDir; split <;> rfl

/-- Directories after `ensureDir` are the old ones or the ensured one. -/
theorem ensureDir_dirs_mem (st : FsState) (d : String) :
    ∀ x ∈ (ensureDir st d).dirs, x ∈ st.dirs ∨ x = d := by
  intro x hx
  unfold ensureDir at hx
  split at hx
  · exact Or.inl hx
  · rcases List.mem_cons.mp hx with h | h
    exacts [Or.inr h, Or.inl h]

/-- Writing one validated entry only adds files inside the destination and
directories inside it or the destination's parent. -/
theorem applyEntry_invariants (dest : String) (st : FsState) (e : ZipEntry)
    (hin : underOrEq dest (resolveJoin dest e.name) = true)
    (hpar : underOrEq dest (parentDir (resolveJoin dest e.name)) = true ∨
      parentDir (resolveJoin dest e.name) = parentDir dest) :
    (∀ p c, (p, c) ∈ (applyEntry dest st e).files →
      (p, c) ∈ st.files ∨ underOrEq dest p = true) ∧
    (∀ d, d ∈ (applyEntry dest st e).dirs →
      d ∈ st.dirs ∨ underOrEq dest d = true ∨ d = parentDir dest) ∧
    (applyEntry dest st e).zips = st.zips := by
  unfold applyEntry
  by_cases hd : endsWithSlash e.name = true
  · simp only [hd, if_true]
    refine ⟨?_, ?_, ensureDir_zips st _⟩
    · intro p c hp
      rw [ensureDir_files] at hp
      exact Or.inl hp
    · intro d hdm
      rcases ensureDir_dirs_mem st _ d hdm with h | h
      · exact Or.inl h
      · exact Or.inr (Or.inl (h ▸ hin))
  · simp only [hd, if_false]
    unfold setFile
    refine ⟨?_, ?_, ensureDir_zips st _⟩
    · intro p c hp
      rcases List.mem_cons.mp hp with h | h
      · right
        rw [show p = resolveJoin dest e.name from congrArg Prod.fst h]
        exact hin
      · left
        rw [ensureDir_files] at h
        exact (List.mem_filter.mp h).1
    · intro d hdm
      rcases ensureDir_dirs_mem st _ d hdm with h | h
      · exact Or.inl h
      · subst h
        rcases hpar with h' | h'
        · exact Or.inr (Or.inl h')
        · exact Or.inr (Or.inr h')

/-- Invariants of the sequential extraction loop: files are only created
inside the destination, directories inside it or at its parent, and the
result is success or the unhandled validation error; any invalidly named
entry in the list prevents success. -/
theorem unzipEntries_invariants (dest : String)
    (hin : ∀ name : String, validateFileName name = none →
      underOrEq dest (resolveJoin dest name) = true)
    (hpar : ∀ name : String, validateFileName name = none →
      underOrEq dest (parentDir (resolveJoin dest name)) = true ∨
        parentDir (resolveJoin dest name) = parentDir dest) :
    ∀ (es : List ZipEntry) (st : FsState),
      (∀ p c, (p, c) ∈ (unzipEntries dest st es).1.files →
        (p, c) ∈ st.files ∨ underOrEq dest p = true) ∧
      (∀ d, d ∈ (unzipEntries dest st es).1.dirs →
        d ∈ st.dirs ∨ underOrEq dest d = true ∨ d = parentDir dest) ∧
      ((unzipEntries dest st es).2 = .ok () ∨
        ∃ m, (unzipEntries dest st es).2 = .error (.unhandledError m)) ∧
      (∀ e ∈ es, validateFileName (decodeEntryName e.name) ≠ none →
        (unzipEntries dest st es).2 ≠ .ok ()) := by
  intro es
  induction es with
  | nil =>
    intro st
    exact ⟨fun p c h => Or.inl h, fun d h => Or.inl h, Or.inl rfl,
      fun e he => absurd he (by simp)⟩
  | cons e rest ih =>
    intro st
    cases hv : validateFileName (decodeEntryName e.name) with
    | some msg =>
      simp only [unzipEntries, hv]
      exact ⟨fun p c h => Or.inl h, fun d h => Or.inl h, Or.inr ⟨msg, rfl⟩,
        fun _ _ _ => by simp⟩
    | none =>
      simp only [unzipEntries, hv]
      have hae := applyEntry_invariants dest st ⟨decodeEntryName e.name, e.data⟩
        (hin _ hv) (hpar _ hv)
      obtain ⟨ihf, ihd, ihr, ihv⟩ := ih (applyEntry dest st ⟨decodeEntryName e.name, e.data⟩)
      refine ⟨?_, ?_, ihr, ?_⟩
      · intro p c h
        rcases ihf p c h with h1 | h2
        · rcases hae.1 p c h1 with ha | hb
          exacts [Or.inl ha, Or.inr hb]
        · exact Or.inr h2
      · intro d h
        rcases ihd d h with h1 | h2
        · rcases hae.2.1 d h1 with ha | hb
          exacts [Or.inl ha, Or.inr hb]
        · exact Or.inr h2
      · intro e' he' hv'
        rcases List.mem_cons.mp he' with he1 | he2
        · exact absurd (he1 ▸ hv) hv'
        · exact ihv e' he2 hv'

/-- C1, counterexample: extracting the archive whose single entry is named
`../evil.txt` into `/home/user/dest` fails — yauzl's entry-name validation
(`decodeStrings` defaults to true) rejects the name before the entry
handler runs — and `evil.txt` is NOT created outside the destination; but
the failure is not a PathRestricted-class failure of `unzipFile`: since the
code registers no `error` listener on the zipfile, it is the unhandled
`invalid relative path` error event of the library, and the state is left
exactly as it was. -/
theorem unzip_zipslip_counterexample :
    unzipFile "/home/user" stZipSlip "a.zip" "dest"
      = (stZipSlip, .error (.unhandledError "invalid relative path: ../evil.txt")) ∧
    (unzipFile "/home/user" stZipSlip "a.zip" "dest").2 ≠ .error .pathRestricted ∧
    getFile (unzipFile "/home/user" stZipSlip "a.zip" "dest").1
      "/home/user/evil.txt" = none :=
  ⟨rfl, by decide, rfl⟩

/-- C1 (amended): `server.js` itself performs no per-entry confinement
check, but yauzl's entry-name validation (on by default) rejects every
entry name with a `..` segment, an absolute or drive-letter prefix, or a
backslash-encoded equivalent before the entry handler runs — and every name
it accepts resolves to the destination or below it, so every escaping entry
is rejected.  Consequently extraction never creates a file outside the
destination (the only directory it ever ensures outside is the
destination's own parent, which exists on a real filesystem whenever the
destination does), an invalidly named entry anywhere in the archive
prevents the success result, and the only failure extraction itself can
produce is the library's validation error — which, because `unzipFile`
registers no `error` listener, escapes as an unhandled error event rather
than a PathRestricted-class failure. -/
theorem unzip_entry_validation (home : String) (st : FsState)
    (filePath destinationPath : String) (es : List ZipEntry)
    (h1 : sandboxOk home filePath = true)
    (h2 : sandboxOk home destinationPath = true)
    (hz : getZip st (resolveJoin home filePath) = some es)
    (hroot : resolveJoin home destinationPath ≠ "/") :
    (∀ name : String, validateFileName name = none →
      underOrEq (resolveJoin home destinationPath)
        (resolveJoin (resolveJoin home destinationPath) name) = true) ∧
    (∀ p c, (p, c) ∈ (unzipFile home st filePath destinationPath).1.files →
      (p, c) ∈ st.files ∨
        underOrEq (resolveJoin home destinationPath) p = true) ∧
    (∀ d, d ∈ (unzipFile home st filePath destinationPath).1.dirs →
      d ∈ st.dirs ∨ underOrEq (resolveJoin home destinationPath) d = true ∨
        d = parentDir (resolveJoin home destinationPath)) ∧
    ((unzipFile home st filePath destinationPath).2 = .ok () ∨
      ∃ m, (unzipFile home st filePath destinationPath).2
        = .error (.unhandledError m)) ∧
    (∀ e ∈ es, validateFileName (decodeEntryName e.name) ≠ none →
      (unzipFile home st filePath destinationPath).2 ≠ .ok ()) := by
  have hne : normSegsAux [] (splitPath home ++ splitPath destinationPath) ≠ [] := by
    intro h
    apply hroot
    show renderAbs (normSegsAux [] (splitPath home ++ splitPath destinationPath)) = "/"
    rw [h]
    rfl
  have hhyg : ∀ d ∈ normSegsAux [] (splitPath home ++ splitPath destinationPath),
      (d ≠ "" ∧ d ≠ "." ∧ d ≠ "..") ∧ '/' ∉ d.data := by
    intro d hd
    refine ⟨normSegsAux_notSpecial _ [] (by simp) d hd, ?_⟩
    rcases normSegsAux_mem _ [] d hd with h | h
    · simp at h
    · rcases List.mem_append.mp h with h' | h'
      exacts [splitPath_no_slash home d h', splitPath_no_slash destinationPath d h']
  have hin : ∀ name : String, validateFileName name = none →
      underOrEq (resolveJoin home destinationPath)
        (resolveJoin (resolveJoin home destinationPath) name) = true :=
    fun name hv => validName_inside _ hne hhyg name hv
  have hpar : ∀ name : String, validateFileName name = none →
      underOrEq (resolveJoin home destinationPath)
          (parentDir (resolveJoin (resolveJoin home destinationPath) name)) = true ∨
        parentDir (resolveJoin (resolveJoin home destinationPath) name)
          = parentDir (resolveJoin home destinationPath) :=
    fun name hv => validName_parent_inside _ hne hhyg name hv
  have hun : unzipFile home st filePath destinationPath
      = unzipEntries (resolveJoin home destinationPath)
          (ensureDir st (resolveJoin home destinationPath)) es := by
    simp [unzipFile, h1, h2, getZip_ensureDir, hz]
  obtain ⟨hf, hd, hr, hv⟩ := unzipEntries_invariants
    (resolveJoin home destinationPath) hin hpar es
    (ensureDir st (resolveJoin home destinationPath))
  refine ⟨hin, ?_, ?_, ?_, ?_⟩
  · intro p c hp
    rw [hun] at hp
    rcases hf p c hp with h | h
    · rw [ensureDir_files] at h
      exact Or.inl h
    · exact Or.inr h
  · intro d hdm
    rw [hun] at hdm
    rcases hd d hdm with h | h
    · rcases ensureDir_dirs_mem st _ d h with h' | h'
      · exact Or.inl h'
      · exact Or.inr (Or.inl (h' ▸ by simp [underOrEq]))
    · exact Or.inr h
  · rw [hun]
    exact hr
  · intro e he hve
    rw [hun]
    exact hv e he hve

/-- Witness for `unzip_entry_validation` at the malicious archive: the
`../evil.txt` entry is invalid, so extraction cannot report success. -/
theorem unzip_entry_validation_witness :
    validateFileName (decodeEntryName "../evil.txt")
      = some "invalid relative path: ../evil.txt" ∧
    (unzipFile "/home/user" stZipSlip "a.zip" "dest").2 ≠ .ok () :=
  ⟨rfl,
    (unzip_entry_validation "/home/user" stZipSlip "a.zip" "dest"
        [⟨"../evil.txt", "pwned"⟩] (by decide) (by decide) rfl
        (by decide)).2.2.2.2 ⟨"../evil.txt", "pwned"⟩ (by decide) (by decide)⟩
